import Mathlib

/-!
# Verification of the `code-manager` repository manager (`main.go`)

A shallow embedding of the Go program in `main.go`.  The program:
* discovers git repositories under a root directory and merges them into a
  manifest (`update`),
* reconciles each manifest entry by clone-if-absent / fetch / gated pull
  (`upgrade`, `gitClone`, `gitFetch`, `gitPull`),
* gates the pull on the output of `git status` matching a fixed regular
  expression (`gitStatusTemplateStr`),
* sequences everything in `do` and `main`.

External effects (processes, the filesystem, YAML) are modelled by explicit
environments recording the results the outside world would return; the control
flow of each Go function is translated directly.
-/

namespace CodeManager

/-- `RepoConfig` from `main.go`: one manifest entry. -/
structure RepoConfig where
  directory : String
  remote : String
deriving DecidableEq, Repr

/-- `Flag` from `main.go`: the command line options. -/
structure Flag where
  rootDir : String
  update : Bool
  upgrade : Bool
deriving DecidableEq, Repr

/-! ## The merge step of `update` (main.go lines 227-239)

The Go code builds `repoDict : map[string]string` by iterating over
`config.Repos` in order (so a later entry overwrites an earlier one with the
same directory), rebuilds the slice from the map, and sorts it by directory.
A Go map is a finite map from keys to values; we model it as an association
list with unique keys where insertion replaces any existing binding.  Go map
iteration order is unspecified, but the final `sort.Slice` on the unique
directory keys makes the result independent of it, so any faithful finite-map
representation yields the same sorted output. -/

/-- Insertion into the directory-to-remote map: `repoDict[repo.Directory] = repo.Remote`. -/
def dictInsert (d : List (String × String)) (k v : String) : List (String × String) :=
  d.filter (fun p => !(p.1 == k)) ++ [(k, v)]

/-- The loop `for _, repo := range config.Repos { repoDict[repo.Directory] = repo.Remote }`. -/
def buildDict (repos : List RepoConfig) : List (String × String) :=
  repos.foldl (fun d r => dictInsert d r.directory r.remote) []

/-- The merge-and-sort performed at the end of `update` (main.go lines 227-239):
rebuild the repository list from the directory map and sort it ascending by
directory (`sort.Slice` with comparator `Repos[i].Directory < Repos[j].Directory`;
keys are unique, so sorting with a non-strict comparator gives the same list). -/
def mergeAndSort (repos : List RepoConfig) : List RepoConfig :=
  ((buildDict repos).map (fun p => RepoConfig.mk p.1 p.2)).mergeSort
    (fun a b => decide (a.directory ≤ b.directory))

/-- The remote recorded by the last entry of `l` whose directory is `d`
(later entries overwrite earlier ones in the Go map). -/
def lastRemote : List RepoConfig → String → Option String
  | [], _ => none
  | r :: t, d =>
    match lastRemote t d with
    | some v => some v
    | none => if r.directory == d then some r.remote else none

/-! ## The `git status` gate (main.go lines 90-96, 117-119)

`gitStatusTemplateStr` is the anchored RE2 pattern (a Go raw string, so the
line breaks are literal `\n` characters):

```
^On branch master\n
(Your branch is behind 'origin/master' by \d+ commit(s?), and can be
 fast-forwarded\.|Your branch is up-to-date with 'origin/master'\.)\n
(  \(use "git pull" to update your local branch\)\n)?\n
nothing to commit, working tree clean\n$
```

Because `^` and `$` anchor at the start and end of the text (RE2 default,
no multiline flag), `regexp.Match` holds exactly when the whole text matches.
Every choice point of the pattern is decided by the first character
(`behind`/`up-to-date` diverge at `b` vs `u`; the optional `(s?)` is followed
by `,`; the optional hint line starts with a space while the following
mandatory character is `\n`; `\d+` is greedy and followed by a space), so the
pattern is matched by the deterministic recursive-descent matcher below. -/

/-- Consume an exact literal from the front of the input, returning the rest. -/
def lit : List Char → List Char → Option (List Char)
  | [], s => some s
  | _ :: _, [] => none
  | c :: p, x :: s => if x = c then lit p s else none

/-- Consume `\d+` (one or more ASCII digits, greedily). -/
def digits1 : List Char → Option (List Char)
  | [] => none
  | c :: s => if c.isDigit then some ((c :: s).dropWhile Char.isDigit) else none

/-- First alternative of the status pattern:
`Your branch is behind 'origin/master' by \d+ commit(s?), and can be fast-forwarded\.` -/
def matchBehind (s : List Char) : Option (List Char) :=
  match lit "Your branch is behind 'origin/master' by ".data s with
  | none => none
  | some s1 =>
    match digits1 s1 with
    | none => none
    | some s2 =>
      match lit " commit".data s2 with
      | none => none
      | some s3 =>
        let s4 := match s3 with
          | c :: t => if c = 's' then t else c :: t
          | [] => []
        lit ", and can be fast-forwarded.".data s4

/-- The alternation on the second line of the status pattern. -/
def matchAlt (s : List Char) : Option (List Char) :=
  match matchBehind s with
  | some r => some r
  | none => lit "Your branch is up-to-date with 'origin/master'.".data s

/-- The optional hint-line group `(  \(use "git pull" to update your local branch\)\n)?`. -/
def matchOpt (s : List Char) : List Char :=
  match lit "  (use \"git pull\" to update your local branch)\n".data s with
  | some r => r
  | none => s

/-- Whole-text match of `gitStatusTemplateRe` against a character list. -/
def gitStatusMatchL (s : List Char) : Bool :=
  match lit "On branch master\n".data s with
  | none => false
  | some s1 =>
    match matchAlt s1 with
    | none => false
    | some s2 =>
      match lit ['\n'] s2 with
      | none => false
      | some s3 =>
        match lit ['\n'] (matchOpt s3) with
        | none => false
        | some s5 =>
          match lit "nothing to commit, working tree clean\n".data s5 with
          | some [] => true
          | _ => false

/-- `gitStatusTemplateRe.Match` on the stdout of `git status` (main.go line 117). -/
def gitStatusTemplateMatch (s : String) : Bool :=
  gitStatusMatchL s.data

/-! ## The reconciler (`gitClone`, `gitFetch`, `gitPull`, `upgrade`)

Each external `git` invocation is modelled by the result the process would
return: captured stderr plus an optional process error (`cmd.Wait` or pipe
failure).  The `error` values returned by the Go helpers are either the
sentinel `filepath.SkipDir` or an ordinary error. -/

/-- Result of running one external command: captured stderr and an optional
process error message. -/
inductive CmdResult where
  | ok (stderr : String)
  | fail (stderr : String) (msg : String)
deriving DecidableEq, Repr

/-- The `error` values produced by the Go helpers: the `filepath.SkipDir`
sentinel or an ordinary error carrying its message. -/
inductive GoError where
  | skipDir
  | msg (s : String)
deriving DecidableEq, Repr

/-- What the outside world answers for one repository:
* `gitDirStat` — `os.Stat(Directory/.git)`: `.ok true` means the path exists,
  `.ok false` means the stat error satisfies `os.IsNotExist`, `.error e` is
  any other stat error;
* `clone`, `fetch`, `pull` — the respective `git` process runs;
* `statusOut` — the stdout of `git status`, or a process error. -/
structure RepoEnv where
  gitDirStat : Except String Bool
  clone : CmdResult
  fetch : CmdResult
  statusOut : Except String String
  pull : CmdResult
deriving Repr

/-- `gitClone` (main.go lines 44-68): skip if `.git` exists, propagate other
stat errors, otherwise run `git clone` and report its stderr and error. -/
def gitClone (env : RepoEnv) : String × Option GoError :=
  match env.gitDirStat with
  | .ok true => ("", some .skipDir)
  | .error e => ("", some (.msg e))
  | .ok false =>
    match env.clone with
    | .ok stderr => (stderr, none)
    | .fail stderr m => (stderr, some (.msg m))

/-- Whether `gitClone` actually starts a `git clone` process: only when the
stat of `.git` failed with `IsNotExist`. -/
def cloneCmdInvoked (env : RepoEnv) : Bool :=
  match env.gitDirStat with
  | .ok false => true
  | _ => false

/-- `gitFetch` (main.go lines 70-88): run `git fetch`, report stderr and error. -/
def gitFetch (env : RepoEnv) : String × Option GoError :=
  match env.fetch with
  | .ok stderr => (stderr, none)
  | .fail stderr m => (stderr, some (.msg m))

/-- `gitPull` (main.go lines 98-138): run `git status`; if its output does not
match `gitStatusTemplateRe`, return `filepath.SkipDir`; otherwise run
`git pull` and report its stderr and error. -/
def gitPull (env : RepoEnv) : String × Option GoError :=
  match env.statusOut with
  | .error e => ("", some (.msg e))
  | .ok out =>
    if gitStatusTemplateMatch out then
      match env.pull with
      | .ok stderr => (stderr, none)
      | .fail stderr m => (stderr, some (.msg m))
    else ("", some .skipDir)

/-- Whether `gitPull` reaches the actual `git pull` invocation (status ran
fine and the gate accepted its output). -/
def pullCmdInGitPull (env : RepoEnv) : Bool :=
  match env.statusOut with
  | .ok out => gitStatusTemplateMatch out
  | .error _ => false

/-- The message of `filepath.SkipDir` or of an ordinary error, as formatted by
`%v` in the Go log calls. -/
def GoError.text : GoError → String
  | .skipDir => "skip this directory"
  | .msg s => s

/-- The log lines emitted by `upgrade` for one repository, in structured form
(main.go lines 150-171; each constructor corresponds to one format string). -/
inductive LogEntry where
  | cloneFailed (dir msg stderr : String)
  | cloneFinished (dir : String)
  | fetchFailed (dir msg stderr : String)
  | fetchFinished (dir : String)
  | upgradeSkipped (dir : String)
  | upgradeFailed (dir msg stderr : String)
  | upgradeFinished (dir : String)
deriving DecidableEq, Repr

/-- Severity used by the corresponding `glog` call. -/
inductive LogLevel where
  | info
  | warning
  | error
deriving DecidableEq, Repr

/-- The `glog` severity of each log line of the loop body. -/
def LogEntry.level : LogEntry → LogLevel
  | .cloneFailed _ _ _ => .error
  | .cloneFinished _ => .info
  | .fetchFailed _ _ _ => .error
  | .fetchFinished _ => .info
  | .upgradeSkipped _ => .warning
  | .upgradeFailed _ _ _ => .error
  | .upgradeFinished _ => .info

/-- Whether a log line was emitted by the clone step. -/
def LogEntry.isCloneLog : LogEntry → Bool
  | .cloneFailed _ _ _ => true
  | .cloneFinished _ => true
  | _ => false

/-- Per-repository outcome classification (spec section 4.3): the branch the
loop body ends in.  `success` ends with the info line `Upgrade in ... finished`,
`skipped` with the warning `Upgrade in ... skipped`, `failed` with one of the
error lines followed by `continue`. -/
inductive Outcome where
  | success
  | skipped
  | failed
deriving DecidableEq, Repr

/-- The pull step of the loop body (main.go lines 164-171). -/
def pullStep (repo : RepoConfig) (env : RepoEnv) : List LogEntry × Outcome :=
  match gitPull env with
  | (_, some .skipDir) => ([.upgradeSkipped repo.directory], .skipped)
  | (stderr, some (.msg m)) => ([.upgradeFailed repo.directory m stderr], .failed)
  | (_, none) => ([.upgradeFinished repo.directory], .success)

/-- The fetch step of the loop body (main.go lines 158-163): on error log and
`continue`, otherwise log and go on to the pull step. -/
def fetchStep (repo : RepoConfig) (env : RepoEnv) : List LogEntry × Outcome :=
  match gitFetch env with
  | (stderr, some e) => ([.fetchFailed repo.directory e.text stderr], .failed)
  | (_, none) =>
    let r := pullStep repo env
    (.fetchFinished repo.directory :: r.1, r.2)

/-- One iteration of the `upgrade` loop (main.go lines 149-172): clone step
(silent when the repository already exists), then fetch, then gated pull. -/
def upgradeRepo (repo : RepoConfig) (env : RepoEnv) : List LogEntry × Outcome :=
  match gitClone env with
  | (_, some .skipDir) => fetchStep repo env
  | (stderr, some (.msg m)) => ([.cloneFailed repo.directory m stderr], .failed)
  | (_, none) =>
    let r := fetchStep repo env
    (.cloneFinished repo.directory :: r.1, r.2)

/-- Whether the loop body reaches the fetch step (clone succeeded or was the
silent `SkipDir` skip). -/
def fetchCmdInvoked (env : RepoEnv) : Bool :=
  match (gitClone env).2 with
  | some .skipDir => true
  | none => true
  | some (.msg _) => false

/-- Whether the loop body reaches `gitPull` at all (and hence runs `git status`). -/
def statusCmdInvoked (env : RepoEnv) : Bool :=
  fetchCmdInvoked env && ((gitFetch env).2 == none)

/-- Whether the loop body actually runs `git pull` for this repository. -/
def pullCmdInvoked (env : RepoEnv) : Bool :=
  statusCmdInvoked env && pullCmdInGitPull env

/-- `upgrade` (main.go lines 140-174): process every repository in order,
isolating failures to the single repository (`continue`), and finally
`return nil`.  The function's error result is always `nil`. -/
def upgrade (repos : List RepoConfig) (envOf : RepoConfig → RepoEnv) :
    List (List LogEntry × Outcome) × Option String :=
  (repos.map (fun r => upgradeRepo r (envOf r)), none)

/-! ## Discovery (`remoteDir`, `update`) and the orchestrator (`do`, `main`)

The `filepath.Walk` of `update` hits each `.git` directory once (it returns
`filepath.SkipDir` after recording a repository, and ignores every other
entry).  We model the walk by the list of discovered `.git` hits in walk
order, each carrying the result `remoteDir` would produce for it: the origin
URL, or the error (missing config file, parse error, missing section or key). -/

/-- One `.git` directory encountered by the walk: the repository directory
(`filepath.Dir` of the `.git` path) and the result of `remoteDir` on it. -/
structure DiscoveredRepo where
  directory : String
  remote : Except String String
deriving Repr

/-- The walk loop of `update` (main.go lines 206-226): append each discovered
repository to the list, aborting the whole walk on the first `remoteDir`
error (the callback returns the error, which `filepath.Walk` propagates). -/
def walkRepos (repos : List RepoConfig) : List DiscoveredRepo → Except String (List RepoConfig)
  | [] => .ok repos
  | d :: rest =>
    match d.remote with
    | .error e => .error e
    | .ok url => walkRepos (repos ++ [RepoConfig.mk d.directory url]) rest

/-- `update` (main.go lines 197-240): walk for discovery, then merge into the
directory map and sort.  On a walk error, return it without merging. -/
def updateRepos (repos : List RepoConfig) (walk : List DiscoveredRepo) :
    Except String (List RepoConfig) :=
  match walkRepos repos walk with
  | .error e => .error e
  | .ok rs => .ok (mergeAndSort rs)

/-- Everything the outside world answers during one run of `do`:
* `readFile` — `ioutil.ReadFile(rootDir/repositories.txt)`;
* `unmarshal` — `yaml.Unmarshal` applied to that content;
* `walk` — the `.git` hits of the discovery walk;
* `reconcile` — the per-repository process results used by `upgrade`;
* `marshal` — `yaml.Marshal(config)`;
* `write` — the error of `ioutil.WriteFile`, if any. -/
structure DoEnv where
  readFile : Except String String
  unmarshal : Except String (List RepoConfig)
  walk : List DiscoveredRepo
  reconcile : RepoConfig → RepoEnv
  marshal : Except String String
  write : Option String

/-- Reading and parsing the manifest (main.go lines 244-252). -/
def loadManifest (env : DoEnv) : Except String (List RepoConfig) :=
  match env.readFile with
  | .error e => .error e
  | .ok _ => env.unmarshal

/-- Marshalling and writing the manifest back (main.go lines 266-275). -/
def persistManifest (env : DoEnv) : Option String :=
  match env.marshal with
  | .error e => some e
  | .ok _ => env.write

/-- The stages of one run, in the order `do` can enter them. -/
inductive Stage where
  | load
  | discovery
  | reconcile
  | persist
deriving DecidableEq, Repr

/-- `do` (main.go lines 242-277): load the manifest, then (update flag)
discovery, then (upgrade flag) reconciliation, then (update flag) write-back.
Returns the stages entered, in order, and the error `do` returns. -/
def doRun (fl : Flag) (env : DoEnv) : List Stage × Option String :=
  match loadManifest env with
  | .error e => ([.load], some e)
  | .ok repos0 =>
    match (if fl.update then updateRepos repos0 env.walk else .ok repos0) with
    | .error e => ([.load, .discovery], some e)
    | .ok repos1 =>
      let t2 := [Stage.load] ++ (if fl.update then [Stage.discovery] else [])
        ++ (if fl.upgrade then [Stage.reconcile] else [])
      match (if fl.upgrade then (upgrade repos1 env.reconcile).2 else none) with
      | some e => (t2, some e)
      | none =>
        if fl.update then (t2 ++ [Stage.persist], persistManifest env)
        else (t2, none)

/-- `main` (main.go lines 279-285): run `do`, log any error, and fall off the
end of `main` — so the process exit status is 0 either way.  Returns the exit
status and whether an error was logged. -/
def mainRun (fl : Flag) (env : DoEnv) : Nat × Bool :=
  match (doRun fl env).2 with
  | some _ => (0, true)
  | none => (0, false)

/-! ## Shapes of `git status` output

Concrete families of status texts used to state the claims about the gate:
a clean working tree on branch `master`, either up to date with
`origin/master` or strictly behind it by `\d+` commits and fast-forwardable,
with or without the `(use "git pull" ...)` hint line. -/

/-- The tail shared by all clean status texts: the optional hint line, the
blank line, and the `nothing to commit` line. -/
def cleanTail (hint : Bool) : List Char :=
  (if hint then "  (use \"git pull\" to update your local branch)\n".data else [])
  ++ "\nnothing to commit, working tree clean\n".data

/-- Status text: clean and strictly behind `origin/master` by the digit string
`ds` commits (plural or singular), fast-forwardable. -/
def behindStatusText (ds : List Char) (plural hint : Bool) : List Char :=
  "On branch master\nYour branch is behind 'origin/master' by ".data ++ ds
  ++ (if plural then " commits".data else " commit".data)
  ++ ", and can be fast-forwarded.\n".data ++ cleanTail hint

/-- Status text: clean and up to date with `origin/master`. -/
def upToDateStatusText (hint : Bool) : List Char :=
  "On branch master\nYour branch is up-to-date with 'origin/master'.\n".data
  ++ cleanTail hint

/-- Status text of a clean, up-to-date repository on branch `b` tracking
remote ref `r` (the shape git prints for any branch, no hint line). -/
def upToDateStatusFor (b r : List Char) : List Char :=
  "On branch ".data ++ b
  ++ '\n' :: ("Your branch is up-to-date with '".data ++ r
      ++ "'.\n\nnothing to commit, working tree clean\n".data)

/-- Whether `pat` occurs contiguously anywhere in the text.  A status text
reporting an uncommitted change never contains the line
`nothing to commit, working tree clean`, so "reports an uncommitted change"
is modelled as `hasSeg` of that line being `false`. -/
def hasSeg (pat : List Char) : List Char → Bool
  | [] => (lit pat []).isSome
  | c :: t => (lit pat (c :: t)).isSome || hasSeg pat t

/-! ## Lemmas about the literal matcher -/

theorem lit_eq_some (p : List Char) : ∀ s r, lit p s = some r ↔ s = p ++ r := by
  induction p with
  | nil => intro s r; simp [lit]
  | cons c p ih =>
    intro s r
    cases s with
    | nil => simp [lit]
    | cons x s =>
      by_cases h : x = c
      · subst h
        simp [lit, ih]
      · simp [lit, h, Ne.symm h]

theorem lit_self_append (p r : List Char) : lit p (p ++ r) = some r :=
  (lit_eq_some p (p ++ r) r).mpr rfl

theorem lit_cons_ne (c : Char) (p : List Char) (x : Char) (s : List Char)
    (h : x ≠ c) : lit (c :: p) (x :: s) = none := by
  simp [lit, h]

/-- Two splittings of a character list at its first newline agree. -/
theorem append_newline_eq :
    ∀ (a c x y : List Char), '\n' ∉ a → '\n' ∉ c →
      a ++ '\n' :: x = c ++ '\n' :: y → a = c ∧ x = y := by
  intro a
  induction a with
  | nil =>
    intro c x y _ hc h
    cases c with
    | nil => simpa using h
    | cons d t =>
      simp only [List.nil_append, List.cons_append, List.cons.injEq] at h
      exact absurd (by rw [← h.1]; exact List.mem_cons_self _ _) hc
  | cons b a ih =>
    intro c x y ha hc h
    cases c with
    | nil =>
      simp only [List.cons_append, List.nil_append, List.cons.injEq] at h
      exact absurd (by rw [h.1]; exact List.mem_cons_self _ _) ha
    | cons d t =>
      simp only [List.cons_append, List.cons.injEq] at h
      obtain ⟨hbd, h2⟩ := h
      have := ih t x y (fun hm => ha (List.mem_cons_of_mem _ hm))
        (fun hm => hc (List.mem_cons_of_mem _ hm)) h2
      exact ⟨by rw [hbd, this.1], this.2⟩

theorem append_ne_of_take_ne (p q x y : List Char) (n : Nat)
    (hp : n ≤ p.length) (hq : n ≤ q.length) (h : p.take n ≠ q.take n) :
    p ++ x ≠ q ++ y := by
  intro he
  apply h
  have := congrArg (List.take n) he
  rw [List.take_append_eq_append_take, List.take_append_eq_append_take] at this
  simpa [Nat.sub_eq_zero_of_le hp, Nat.sub_eq_zero_of_le hq] using this

theorem lit_none_of_take_ne (p s₀ z : List Char) (n : Nat)
    (hp : n ≤ p.length) (hs : n ≤ s₀.length) (h : s₀.take n ≠ p.take n) :
    lit p (s₀ ++ z) = none := by
  cases he : lit p (s₀ ++ z) with
  | none => rfl
  | some r =>
    exact absurd ((lit_eq_some p _ r).mp he) (append_ne_of_take_ne s₀ p z r n hs hp h)

theorem dropWhile_digits (r : List Char) (c : Char) (hc : c.isDigit = false) :
    ∀ ds : List Char, (∀ x ∈ ds, x.isDigit = true) →
      (ds ++ c :: r).dropWhile Char.isDigit = c :: r := by
  intro ds
  induction ds with
  | nil => intro _; simp [List.dropWhile_cons, hc]
  | cons d t ih =>
    intro hds
    have hd := hds d (List.mem_cons_self _ _)
    simp [List.dropWhile_cons, hd, ih (fun x hx => hds x (List.mem_cons_of_mem _ hx))]

theorem digits1_append (ds : List Char) (c : Char)
    (hne : ds ≠ []) (hds : ∀ x ∈ ds, x.isDigit = true) (hc : c.isDigit = false) :
    digits1 (ds ++ c :: r) = some (c :: r) := by
  cases ds with
  | nil => exact absurd rfl hne
  | cons d t =>
    have hd := hds d (List.mem_cons_self _ _)
    have ht : ∀ x ∈ t, x.isDigit = true := fun x hx => hds x (List.mem_cons_of_mem _ hx)
    simp [digits1, hd, dropWhile_digits r c hc t ht]

theorem digits1_sub (s r : List Char) (h : digits1 s = some r) : ∃ a, s = a ++ r := by
  cases s with
  | nil => simp [digits1] at h
  | cons c t =>
    simp only [digits1] at h
    by_cases hc : c.isDigit
    · simp only [hc, if_pos] at h
      refine ⟨(c :: t).takeWhile Char.isDigit, ?_⟩
      simp only [Option.some.injEq] at h
      rw [← h]
      exact (List.takeWhile_append_dropWhile _ _).symm
    · simp [hc] at h

theorem matchBehind_sub (s r : List Char) (h : matchBehind s = some r) :
    ∃ a, s = a ++ r := by
  unfold matchBehind at h
  cases h1 : lit "Your branch is behind 'origin/master' by ".data s with
  | none => simp [h1] at h
  | some s1 =>
    simp only [h1] at h
    cases h2 : digits1 s1 with
    | none => simp [h2] at h
    | some s2 =>
      simp only [h2] at h
      cases h3 : lit " commit".data s2 with
      | none => simp [h3] at h
      | some s3 =>
        simp only [h3] at h
        have e1 := (lit_eq_some _ s s1).mp h1
        obtain ⟨a2, e2⟩ := digits1_sub s1 s2 h2
        have e3 := (lit_eq_some _ s2 s3).mp h3
        have key : ∃ a4, s3 = a4 ++ r := by
          cases s3 with
          | nil =>
            exact ⟨", and can be fast-forwarded.".data, (lit_eq_some _ _ r).mp h⟩
          | cons x t =>
            have h' : lit ", and can be fast-forwarded.".data
                (if x = 's' then t else x :: t) = some r := h
            by_cases hx : x = 's'
            · subst hx
              rw [if_pos rfl] at h'
              exact ⟨'s' :: ", and can be fast-forwarded.".data, by
                rw [(lit_eq_some _ _ r).mp h']; rfl⟩
            · rw [if_neg hx] at h'
              exact ⟨", and can be fast-forwarded.".data, (lit_eq_some _ _ r).mp h'⟩
        obtain ⟨a4, e4⟩ := key
        refine ⟨"Your branch is behind 'origin/master' by ".data ++ a2
          ++ " commit".data ++ a4, ?_⟩
        rw [e1, e2, e3, e4]
        simp [List.append_assoc]

theorem matchAlt_sub (s r : List Char) (h : matchAlt s = some r) :
    ∃ a, s = a ++ r := by
  unfold matchAlt at h
  cases hb : matchBehind s with
  | some w =>
    simp only [hb, Option.some.injEq] at h
    exact h ▸ matchBehind_sub s w hb
  | none =>
    simp only [hb] at h
    exact ⟨_, (lit_eq_some _ _ r).mp h⟩

theorem matchOpt_sub (s : List Char) : ∃ a, s = a ++ matchOpt s := by
  unfold matchOpt
  cases hl : lit "  (use \"git pull\" to update your local branch)\n".data s with
  | some w => exact ⟨_, (lit_eq_some _ _ w).mp hl⟩
  | none => exact ⟨[], rfl⟩

/-- A text accepted by the whole-status matcher ends with the literal line
`nothing to commit, working tree clean` followed by a newline. -/
theorem gitStatusMatchL_true_decomp (s : List Char) (h : gitStatusMatchL s = true) :
    ∃ x, s = x ++ "nothing to commit, working tree clean\n".data := by
  unfold gitStatusMatchL at h
  cases h1 : lit "On branch master\n".data s with
  | none => simp [h1] at h
  | some s1 =>
    simp only [h1] at h
    cases h2 : matchAlt s1 with
    | none => simp [h2] at h
    | some s2 =>
      simp only [h2] at h
      cases h3 : lit ['\n'] s2 with
      | none => simp [h3] at h
      | some s3 =>
        simp only [h3] at h
        cases h4 : lit ['\n'] (matchOpt s3) with
        | none => simp [h4] at h
        | some s5 =>
          simp only [h4] at h
          cases h5 : lit "nothing to commit, working tree clean\n".data s5 with
          | none => simp [h5] at h
          | some rest =>
            simp only [h5] at h
            cases rest with
            | cons a b => exact Bool.noConfusion (h : false = true)
            | nil =>
              have e1 := (lit_eq_some _ s s1).mp h1
              obtain ⟨a2, e2⟩ := matchAlt_sub s1 s2 h2
              have e3 := (lit_eq_some _ s2 s3).mp h3
              obtain ⟨a4, e4⟩ := matchOpt_sub s3
              have e5 := (lit_eq_some _ (matchOpt s3) s5).mp h4
              have e6 := (lit_eq_some _ s5 []).mp h5
              refine ⟨"On branch master\n".data ++ a2 ++ ['\n'] ++ a4 ++ ['\n'], ?_⟩
              rw [e1, e2, e3, e4, e5, e6]
              simp [List.append_assoc]

/-! ## The matcher accepts the clean status shapes -/

theorem behindStatus_match (ds : List Char) (plural hint : Bool)
    (hne : ds ≠ []) (hds : ∀ x ∈ ds, x.isDigit = true) :
    gitStatusMatchL (behindStatusText ds plural hint) = true := by
  cases plural <;> cases hint <;>
    simp [behindStatusText, cleanTail, gitStatusMatchL, matchAlt, matchBehind, matchOpt,
      lit, digits1_append ds ' ' hne hds (by decide)]

theorem upToDateStatus_match (hint : Bool) :
    gitStatusMatchL (upToDateStatusText hint) = true := by
  cases hint <;> decide

/-- The gate accepts the clean up-to-date status shape for branch `b` tracking
`r` exactly when `b` is literally `master` and `r` literally `origin/master`
(git branch names and remote refs never contain a newline). -/
theorem upToDateStatusFor_match_iff (b r : List Char)
    (hb : '\n' ∉ b) (hr : '\n' ∉ r) :
    gitStatusMatchL (upToDateStatusFor b r) = true
      ↔ (b = "master".data ∧ r = "origin/master".data) := by
  constructor
  · intro h
    unfold gitStatusMatchL at h
    cases h1 : lit "On branch master\n".data (upToDateStatusFor b r) with
    | none => simp [h1] at h
    | some s1 =>
      simp only [h1] at h
      have e1 := (lit_eq_some _ _ s1).mp h1
      rw [upToDateStatusFor] at e1
      rw [show "On branch master\n".data
        = "On branch master".data ++ ['\n'] from by decide] at e1
      rw [show ("On branch master".data ++ ['\n']) ++ s1
        = "On branch master".data ++ '\n' :: s1 from by simp] at e1
      rw [show "On branch ".data ++ b
          ++ '\n' :: ("Your branch is up-to-date with '".data ++ r
            ++ "'.\n\nnothing to commit, working tree clean\n".data)
        = ("On branch ".data ++ b)
          ++ '\n' :: ("Your branch is up-to-date with '".data ++ r
            ++ "'.\n\nnothing to commit, working tree clean\n".data) from by simp] at e1
      have hnb : '\n' ∉ "On branch ".data ++ b := by
        intro hm
        rcases List.mem_append.mp hm with h' | h'
        · exact absurd h' (by decide)
        · exact hb h'
      obtain ⟨eb, es1⟩ := append_newline_eq _ _ _ _ hnb (by decide) e1
      have hbm : b = "master".data := by
        have : "On branch ".data ++ b = "On branch ".data ++ "master".data := by
          rw [eb]; decide
        exact List.append_cancel_left this
      refine ⟨hbm, ?_⟩
      -- now force r through the rest of the parse
      cases h2 : matchAlt s1 with
      | none => simp [h2] at h
      | some s2 =>
        simp only [h2] at h
        cases h3 : lit ['\n'] s2 with
        | none => simp [h3] at h
        | some s3 =>
          have hs1 : s1 = "Your branch is up-to-date with '".data
              ++ (r ++ "'.\n\nnothing to commit, working tree clean\n".data) := by
            rw [← es1]; simp [List.append_assoc]
          have hmb : matchBehind s1 = none := by
            unfold matchBehind
            rw [hs1, lit_none_of_take_ne _ _ _ 16 (by decide) (by decide) (by decide)]
          have h2' : lit "Your branch is up-to-date with 'origin/master'.".data s1
              = some s2 := by
            unfold matchAlt at h2
            rwa [hmb] at h2
          have e2 := (lit_eq_some _ _ s2).mp h2'
          rw [hs1] at e2
          rw [show "Your branch is up-to-date with 'origin/master'.".data
            = "Your branch is up-to-date with '".data ++ "origin/master'.".data
            from by decide] at e2
          rw [List.append_assoc] at e2
          have e2' := List.append_cancel_left e2
          have e3 := (lit_eq_some _ _ s3).mp h3
          rw [e3] at e2'
          rw [show "'.\n\nnothing to commit, working tree clean\n".data
            = ['\'', '.'] ++ '\n'
              :: ('\n' :: "nothing to commit, working tree clean\n".data)
            from by decide] at e2'
          rw [show r ++ (['\'', '.'] ++ '\n'
              :: ('\n' :: "nothing to commit, working tree clean\n".data))
            = (r ++ ['\'', '.']) ++ '\n'
              :: ('\n' :: "nothing to commit, working tree clean\n".data)
            from by simp] at e2'
          rw [show ['\n'] ++ s3 = '\n' :: s3 from rfl] at e2'
          rw [show "origin/master'.".data ++ '\n' :: s3
            = "origin/master'.".data ++ '\n' :: s3 from rfl] at e2'
          have hnr : '\n' ∉ r ++ ['\'', '.'] := by
            intro hm
            rcases List.mem_append.mp hm with h' | h'
            · exact hr h'
            · exact absurd h' (by decide)
          obtain ⟨er, _⟩ := append_newline_eq _ _ _ _ hnr (by decide) e2'
          have : r ++ ['\'', '.'] = "origin/master".data ++ ['\'', '.'] := by
            rw [er]; decide
          exact List.append_cancel_right this
  · rintro ⟨hb', hr'⟩
    subst hb'
    subst hr'
    decide

/-! ## Lemmas about the merge step -/

theorem mem_dictInsert (d : List (String × String)) (k v k' v' : String) :
    (k', v') ∈ dictInsert d k v ↔ (k' = k ∧ v' = v) ∨ ((k', v') ∈ d ∧ k' ≠ k) := by
  simp [dictInsert, List.mem_filter]
  tauto

theorem nodup_keys_dictInsert (d : List (String × String)) (k v : String)
    (h : (d.map Prod.fst).Nodup) : ((dictInsert d k v).map Prod.fst).Nodup := by
  unfold dictInsert
  rw [List.map_append]
  rw [List.nodup_append]
  refine ⟨((List.filter_sublist d).map Prod.fst).nodup h, by simp, ?_⟩
  intro x hx
  simp only [List.mem_map, List.mem_filter] at hx
  obtain ⟨p, ⟨_, hp⟩, rfl⟩ := hx
  simp only [List.map_cons, List.map_nil, List.mem_singleton]
  intro he
  rw [he] at hp
  simp at hp

theorem nodup_keys_foldl (l : List RepoConfig) :
    ∀ acc : List (String × String), (acc.map Prod.fst).Nodup →
      ((l.foldl (fun d r => dictInsert d r.directory r.remote) acc).map Prod.fst).Nodup := by
  induction l with
  | nil => intro acc h; exact h
  | cons r t ih => intro acc h; exact ih _ (nodup_keys_dictInsert _ _ _ h)

theorem mem_foldl_dict (l : List RepoConfig) :
    ∀ (acc : List (String × String)) (k v : String),
      ((k, v) ∈ l.foldl (fun d r => dictInsert d r.directory r.remote) acc)
        ↔ (lastRemote l k = some v ∨ (lastRemote l k = none ∧ (k, v) ∈ acc)) := by
  induction l with
  | nil => intro acc k v; simp [lastRemote]
  | cons r t ih =>
    intro acc k v
    rw [List.foldl_cons, ih]
    cases hl : lastRemote t k with
    | some w => simp [lastRemote, hl]
    | none =>
      simp only [lastRemote, hl]
      by_cases hk : r.directory = k
      · simp [mem_dictInsert, hk]
        tauto
      · simp [mem_dictInsert, hk]
        constructor
        · rintro (⟨h1, _⟩ | ⟨h2, _⟩)
          · exact absurd h1.symm hk
          · exact h2
        · intro hacc
          exact Or.inr ⟨hacc, fun h' => hk h'.symm⟩

theorem mem_buildDict (repos : List RepoConfig) (k v : String) :
    (k, v) ∈ buildDict repos ↔ lastRemote repos k = some v := by
  rw [buildDict, mem_foldl_dict]
  simp

theorem nodup_keys_buildDict (repos : List RepoConfig) :
    ((buildDict repos).map Prod.fst).Nodup :=
  nodup_keys_foldl repos [] (by simp)

theorem mem_mergeAndSort (repos : List RepoConfig) (e : RepoConfig) :
    e ∈ mergeAndSort repos ↔ lastRemote repos e.directory = some e.remote := by
  obtain ⟨ed, er⟩ := e
  unfold mergeAndSort
  rw [(List.mergeSort_perm _ _).mem_iff]
  simp only [List.mem_map, RepoConfig.mk.injEq, Prod.exists]
  constructor
  · rintro ⟨a, b, hab, rfl, rfl⟩
    exact (mem_buildDict repos a b).mp hab
  · intro h
    exact ⟨ed, er, (mem_buildDict repos ed er).mpr h, rfl, rfl⟩

theorem dirs_nodup_mergeAndSort (repos : List RepoConfig) :
    ((mergeAndSort repos).map RepoConfig.directory).Nodup := by
  unfold mergeAndSort
  rw [((List.mergeSort_perm _ _).map RepoConfig.directory).nodup_iff]
  rw [List.map_map]
  exact nodup_keys_buildDict repos

theorem pairwise_le_mergeAndSort (repos : List RepoConfig) :
    (mergeAndSort repos).Pairwise (fun a b => a.directory ≤ b.directory) := by
  have h := @List.sorted_mergeSort RepoConfig
    (fun a b => decide (a.directory ≤ b.directory))
    (fun a b c hab hbc =>
      decide_eq_true (le_trans (of_decide_eq_true hab) (of_decide_eq_true hbc)))
    (fun a b => by
      simp only [Bool.or_eq_true, decide_eq_true_eq]
      exact le_total _ _)
    ((buildDict repos).map (fun p => RepoConfig.mk p.1 p.2))
  exact h.imp (fun hab => of_decide_eq_true hab)

theorem pairwise_lt_mergeAndSort (repos : List RepoConfig) :
    (mergeAndSort repos).Pairwise (fun a b => a.directory < b.directory) := by
  have h1 := pairwise_le_mergeAndSort repos
  have h2 : (mergeAndSort repos).Pairwise (fun a b => a.directory ≠ b.directory) :=
    List.pairwise_map.mp (dirs_nodup_mergeAndSort repos)
  exact (h1.and h2).imp (fun hab => lt_of_le_of_ne hab.1 hab.2)

/-! ## Lemmas about `lastRemote` -/

theorem lastRemote_append (a b : List RepoConfig) (k : String) :
    lastRemote (a ++ b) k
      = match lastRemote b k with
        | some v => some v
        | none => lastRemote a k := by
  induction a with
  | nil =>
    rw [List.nil_append]
    cases lastRemote b k <;> rfl
  | cons r t ih =>
    rw [List.cons_append]
    rw [show lastRemote (r :: (t ++ b)) k
      = (match lastRemote (t ++ b) k with
         | some v => some v
         | none => if r.directory == k then some r.remote else none) from rfl]
    rw [show lastRemote (r :: t) k
      = (match lastRemote t k with
         | some v => some v
         | none => if r.directory == k then some r.remote else none) from rfl]
    rw [ih]
    cases lastRemote b k <;> cases lastRemote t k <;> rfl

theorem lastRemote_self_append (m : List RepoConfig) (k : String) :
    lastRemote (m ++ m) k = lastRemote m k := by
  cases h : lastRemote m k <;> rw [lastRemote_append, h]

theorem lastRemote_isSome_of_mem (l : List RepoConfig) (d : String)
    (h : ∃ e ∈ l, e.directory = d) : ∃ v, lastRemote l d = some v := by
  induction l with
  | nil => simp at h
  | cons r t ih =>
    rcases h with ⟨e, he, hd⟩
    rcases List.mem_cons.mp he with rfl | ht
    · cases hlt : lastRemote t d with
      | some w => exact ⟨w, by simp [lastRemote, hlt]⟩
      | none =>
        refine ⟨e.remote, ?_⟩
        show (match lastRemote t d with
          | some v => some v
          | none => if e.directory == d then some e.remote else none) = some e.remote
        rw [hlt]
        simp [hd]
    · rcases ih ⟨e, ht, hd⟩ with ⟨v, hv⟩
      exact ⟨v, by simp [lastRemote, hv]⟩

theorem lastRemote_append_discovered (pre disc : List RepoConfig) (d : String)
    (h : ∃ e ∈ disc, e.directory = d) :
    lastRemote (pre ++ disc) d = lastRemote disc d := by
  rcases lastRemote_isSome_of_mem disc d h with ⟨v, hv⟩
  rw [lastRemote_append, hv]

theorem lastRemote_eq_none (l : List RepoConfig) (k : String)
    (h : k ∉ l.map RepoConfig.directory) : lastRemote l k = none := by
  induction l with
  | nil => rfl
  | cons r t ih =>
    rw [List.map_cons, List.mem_cons] at h
    push_neg at h
    have hbeq : (r.directory == k) = false := by
      simp only [beq_eq_false_iff_ne, ne_eq]
      exact fun h' => h.1 h'.symm
    show (match lastRemote t k with
      | some v => some v
      | none => if r.directory == k then some r.remote else none) = none
    rw [ih h.2, hbeq]
    simp

theorem lastRemote_some_mem_dirs (l : List RepoConfig) (k : String) (v : String)
    (h : lastRemote l k = some v) : k ∈ l.map RepoConfig.directory := by
  by_contra hc
  rw [lastRemote_eq_none l k hc] at h
  exact Option.noConfusion h

theorem mem_iff_lastRemote_of_nodup (m : List RepoConfig)
    (h : (m.map RepoConfig.directory).Nodup) (e : RepoConfig) :
    e ∈ m ↔ lastRemote m e.directory = some e.remote := by
  induction m with
  | nil => simp [lastRemote]
  | cons r t ih =>
    rw [List.map_cons, List.nodup_cons] at h
    obtain ⟨hr, ht⟩ := h
    have iht := ih ht
    cases hlt : lastRemote t e.directory with
    | some w =>
      have hester : e ≠ r := by
        rintro rfl
        exact hr (lastRemote_some_mem_dirs t e.directory w hlt)
      rw [List.mem_cons]
      show _ ↔ (match lastRemote t e.directory with
        | some v => some v
        | none => if r.directory == e.directory then some r.remote else none) = some e.remote
      rw [hlt]
      simp only [Option.some.injEq]
      rw [iht, hlt]
      simp [hester]
    | none =>
      have hnt : e ∉ t := by
        intro hm
        rw [iht, hlt] at hm
        exact Option.noConfusion hm
      rw [List.mem_cons]
      show _ ↔ (match lastRemote t e.directory with
        | some v => some v
        | none => if r.directory == e.directory then some r.remote else none) = some e.remote
      rw [hlt]
      by_cases hd : r.directory = e.directory
      · simp only [hd, beq_self_eq_true, if_pos, Option.some.injEq]
        constructor
        · rintro (rfl | hm)
          · rfl
          · exact absurd hm hnt
        · intro hrem
          left
          obtain ⟨ed, er⟩ := e
          obtain ⟨rd, rr⟩ := r
          simp only at hd hrem
          rw [hd, hrem]
      · have hbeq : (r.directory == e.directory) = false := by
          simp only [beq_eq_false_iff_ne, ne_eq]
          exact hd
        rw [hbeq]
        constructor
        · rintro (rfl | hm)
          · exact absurd rfl hd
          · exact absurd (iht.mp hm)
              (by rw [hlt]; exact fun hx => Option.noConfusion hx)
        · intro hcontra
          simp at hcontra

theorem eq_of_pairwise_lt_mem_iff (l₁ l₂ : List RepoConfig)
    (h₁ : l₁.Pairwise (fun a b => a.directory < b.directory))
    (h₂ : l₂.Pairwise (fun a b => a.directory < b.directory))
    (hm : ∀ e, e ∈ l₁ ↔ e ∈ l₂) : l₁ = l₂ := by
  have n₁ : l₁.Nodup := h₁.imp (fun hab => by
    intro he; rw [he] at hab; exact lt_irrefl _ hab)
  have n₂ : l₂.Nodup := h₂.imp (fun hab => by
    intro he; rw [he] at hab; exact lt_irrefl _ hab)
  have hp := (List.perm_ext_iff_of_nodup n₁ n₂).mpr hm
  letI : IsAntisymm RepoConfig (fun a b => a.directory < b.directory) :=
    ⟨fun a b hab hba => absurd (lt_trans hab hba) (lt_irrefl _)⟩
  exact List.eq_of_perm_of_sorted hp h₁ h₂

/-! ## Bridging lemmas for the gate and the reconciler -/

theorem hasSeg_append (pat : List Char) : ∀ x y, hasSeg pat (x ++ pat ++ y) = true := by
  intro x
  induction x with
  | nil =>
    intro y
    rw [List.nil_append]
    cases pat with
    | nil => cases y <;> simp [hasSeg, lit]
    | cons c t =>
      rw [List.cons_append]
      show ((lit (c :: t) (c :: (t ++ y))).isSome || _) = true
      rw [show c :: (t ++ y) = (c :: t) ++ y from rfl, lit_self_append]
      simp
  | cons c t ih =>
    intro y
    rw [List.cons_append]
    show ((lit pat (c :: (t ++ pat ++ y))).isSome || hasSeg pat (t ++ pat ++ y)) = true
    rw [show t ++ pat ++ y = t ++ pat ++ y from rfl, ih y]
    simp

/-- If the status text does not contain the clean line anywhere, the gate
rejects it. -/
theorem match_false_of_no_clean (s : List Char)
    (h : hasSeg "nothing to commit, working tree clean\n".data s = false) :
    gitStatusMatchL s = false := by
  cases hm : gitStatusMatchL s with
  | false => rfl
  | true =>
    obtain ⟨x, hx⟩ := gitStatusMatchL_true_decomp s hm
    have : hasSeg "nothing to commit, working tree clean\n".data s = true := by
      rw [hx, show x ++ "nothing to commit, working tree clean\n".data
        = x ++ "nothing to commit, working tree clean\n".data ++ [] from by simp]
      exact hasSeg_append _ x []
    rw [this] at h
    exact Bool.noConfusion h

/-- The fetch and pull steps never emit a clone log line. -/
theorem fetchStep_no_clone_log (repo : RepoConfig) (env : RepoEnv) :
    ∀ l ∈ (fetchStep repo env).1, l.isCloneLog = false := by
  intro l hl
  rcases hf : gitFetch env with ⟨fs, fe⟩
  cases fe with
  | some e =>
    simp only [fetchStep, hf, List.mem_singleton] at hl
    subst hl
    rfl
  | none =>
    simp only [fetchStep, hf, List.mem_cons] at hl
    rcases hl with rfl | hl
    · rfl
    · rcases hp : gitPull env with ⟨ps, pe⟩
      cases pe with
      | none =>
        simp only [pullStep, hp, List.mem_singleton] at hl
        subst hl
        rfl
      | some ge =>
        cases ge with
        | skipDir =>
          simp only [pullStep, hp, List.mem_singleton] at hl
          subst hl
          rfl
        | msg m =>
          simp only [pullStep, hp, List.mem_singleton] at hl
          subst hl
          rfl

/-! ## The claims -/

/-- C1: for every pre-existing manifest `pre` and every list of discovered
entries `disc`, the merge performed by `update` produces a manifest in which
each directory appears exactly once, whose entries are sorted strictly
ascending by directory string, in which an entry is present exactly when it
records the remote of the last (later-applied) occurrence of its directory in
`pre ++ disc`, and where a directory occurring among the discovered entries
takes its remote from the discovered entries. -/
theorem claim_C1 (pre disc : List RepoConfig) :
    ((mergeAndSort (pre ++ disc)).map RepoConfig.directory).Nodup
    ∧ (mergeAndSort (pre ++ disc)).Pairwise (fun a b => a.directory < b.directory)
    ∧ (∀ e : RepoConfig, e ∈ mergeAndSort (pre ++ disc)
        ↔ lastRemote (pre ++ disc) e.directory = some e.remote)
    ∧ (∀ d : String, (∃ e ∈ disc, e.directory = d)
        → lastRemote (pre ++ disc) d = lastRemote disc d) :=
  ⟨dirs_nodup_mergeAndSort _, pairwise_lt_mergeAndSort _,
   fun e => mem_mergeAndSort _ e,
   fun d h => lastRemote_append_discovered pre disc d h⟩

/-- Witness for C1 at a concrete overlapping merge: the discovered entry for
`/r/a` overrides the pre-existing one. -/
theorem claim_C1_witness :
    (∃ e ∈ [RepoConfig.mk "/r/a" "u3"], e.directory = "/r/a")
    ∧ lastRemote ([RepoConfig.mk "/r/a" "u1", RepoConfig.mk "/r/b" "u2"]
        ++ [RepoConfig.mk "/r/a" "u3"]) "/r/a"
      = lastRemote [RepoConfig.mk "/r/a" "u3"] "/r/a" :=
  ⟨by decide,
   (claim_C1 [RepoConfig.mk "/r/a" "u1", RepoConfig.mk "/r/b" "u2"]
     [RepoConfig.mk "/r/a" "u3"]).2.2.2 "/r/a" (by decide)⟩

/-- C8: merge-then-sort is idempotent — for a manifest already strictly sorted
by directory (hence with unique directories), merging it with itself yields
the manifest unchanged. -/
theorem claim_C8 (m : List RepoConfig)
    (h : m.Pairwise (fun a b => a.directory < b.directory)) :
    mergeAndSort (m ++ m) = m := by
  apply eq_of_pairwise_lt_mem_iff _ _ (pairwise_lt_mergeAndSort _) h
  intro e
  rw [mem_mergeAndSort, lastRemote_self_append]
  have hdirs : (m.map RepoConfig.directory).Nodup :=
    List.pairwise_map.mpr (h.imp (fun hab => ne_of_lt hab))
  exact (mem_iff_lastRemote_of_nodup m hdirs e).symm

/-- Witness for C8 at a concrete sorted two-entry manifest. -/
theorem claim_C8_witness :
    ([RepoConfig.mk "/r/a" "u1", RepoConfig.mk "/r/b" "u2"].Pairwise
      (fun a b => a.directory < b.directory))
    ∧ mergeAndSort ([RepoConfig.mk "/r/a" "u1", RepoConfig.mk "/r/b" "u2"]
        ++ [RepoConfig.mk "/r/a" "u1", RepoConfig.mk "/r/b" "u2"])
      = [RepoConfig.mk "/r/a" "u1", RepoConfig.mk "/r/b" "u2"] :=
  have hp : ([RepoConfig.mk "/r/a" "u1", RepoConfig.mk "/r/b" "u2"].Pairwise
      (fun a b => a.directory < b.directory)) := by
    simp only [List.pairwise_cons, List.mem_singleton, List.not_mem_nil,
      false_implies, implies_true, and_true, List.Pairwise.nil]
    intro b hb
    subst hb
    rw [String.lt_iff_toList_lt]
    decide
  ⟨hp, claim_C8 [RepoConfig.mk "/r/a" "u1", RepoConfig.mk "/r/b" "u2"] hp⟩

/-- C9: the visible entry point always exits with status 0; a top-level error
is only logged and does not change the exit status. -/
theorem claim_C9 (fl : Flag) (env : DoEnv) :
    (mainRun fl env).1 = 0
    ∧ (mainRun fl env).2 = ((doRun fl env).2).isSome := by
  unfold mainRun
  cases (doRun fl env).2 <;> simp

/-- C10: the fast-forward gate accepts the clean up-to-date status shape only
for the literal branch `master` tracking the literal remote ref
`origin/master`; for every other (newline-free) branch or remote name it
rejects, `gitPull` returns the skip sentinel, and `git pull` never runs —
while the `master`/`origin/master` instance is accepted. -/
theorem claim_C10 (b r : List Char) (hb : '\n' ∉ b) (hr : '\n' ∉ r)
    (hne : ¬(b = "master".data ∧ r = "origin/master".data)) :
    gitStatusMatchL (upToDateStatusFor b r) = false
    ∧ (∀ env : RepoEnv, env.statusOut = .ok (String.mk (upToDateStatusFor b r)) →
        gitPull env = ("", some .skipDir) ∧ pullCmdInGitPull env = false)
    ∧ gitStatusMatchL (upToDateStatusFor "master".data "origin/master".data) = true := by
  have hm : gitStatusMatchL (upToDateStatusFor b r) = false := by
    cases h : gitStatusMatchL (upToDateStatusFor b r) with
    | false => rfl
    | true => exact absurd ((upToDateStatusFor_match_iff b r hb hr).mp h) hne
  refine ⟨hm, fun env he => ?_, by decide⟩
  constructor
  · simp [gitPull, he, gitStatusTemplateMatch, hm]
  · simp [pullCmdInGitPull, he, gitStatusTemplateMatch, hm]

/-- Witness for C10: branch `main` tracking `origin/main` (clean, up to date)
is rejected by the gate. -/
theorem claim_C10_witness :
    gitStatusMatchL (upToDateStatusFor "main".data "origin/main".data) = false :=
  (claim_C10 "main".data "origin/main".data (by decide) (by decide) (by decide)).1

/-- C3 fails on the code: for the exact status text of the scenario (which has
no blank line before `nothing to commit, working tree clean`), the gate
rejects, `git pull` is not invoked, and the outcome is `skipped`, not
`success`. -/
theorem claim_C3_counterexample :
    gitStatusTemplateMatch "On branch master\nYour branch is up-to-date with 'origin/master'.\nnothing to commit, working tree clean\n" = false
    ∧ pullCmdInvoked
        (RepoEnv.mk (.ok true) (.ok "") (.ok "")
          (.ok "On branch master\nYour branch is up-to-date with 'origin/master'.\nnothing to commit, working tree clean\n")
          (.ok "")) = false
    ∧ (upgradeRepo (RepoConfig.mk "/r/a" "u1")
        (RepoEnv.mk (.ok true) (.ok "") (.ok "")
          (.ok "On branch master\nYour branch is up-to-date with 'origin/master'.\nnothing to commit, working tree clean\n")
          (.ok ""))).2 = Outcome.skipped := by
  refine ⟨by decide, by decide, by decide⟩

/-- C2: a repository whose `git status` output has the clean strictly-behind
fast-forwardable shape or the clean up-to-date shape passes the fast-forward
gate and `git pull` is invoked; a repository whose status reports any
uncommitted change (its text lacks the line `nothing to commit, working tree
clean`) fails the gate, no pull is invoked, and the repository is skipped
with a warning (`Upgrade in ... skipped`) rather than an error. -/
theorem claim_C2 :
    (∀ (ds : List Char) (plural hint : Bool), ds ≠ [] → (∀ x ∈ ds, x.isDigit = true) →
      ∀ env : RepoEnv,
        env.statusOut = .ok (String.mk (behindStatusText ds plural hint)) →
          gitStatusTemplateMatch (String.mk (behindStatusText ds plural hint)) = true
          ∧ pullCmdInGitPull env = true)
    ∧ (∀ (hint : Bool) (env : RepoEnv),
        env.statusOut = .ok (String.mk (upToDateStatusText hint)) →
          gitStatusTemplateMatch (String.mk (upToDateStatusText hint)) = true
          ∧ pullCmdInGitPull env = true)
    ∧ (∀ (repo : RepoConfig) (env : RepoEnv) (fs : String) (s : String),
        env.gitDirStat = .ok true → env.fetch = .ok fs → env.statusOut = .ok s →
        hasSeg "nothing to commit, working tree clean\n".data s.data = false →
          pullCmdInvoked env = false
          ∧ upgradeRepo repo env
              = ([.fetchFinished repo.directory, .upgradeSkipped repo.directory],
                 .skipped)
          ∧ (upgradeRepo repo env).1.map LogEntry.level
              = [LogLevel.info, LogLevel.warning]) := by
  refine ⟨?_, ?_, ?_⟩
  · intro ds plural hint hne hds env he
    have hm : gitStatusTemplateMatch (String.mk (behindStatusText ds plural hint))
        = true := behindStatus_match ds plural hint hne hds
    refine ⟨hm, ?_⟩
    simp only [pullCmdInGitPull, he]
    exact hm
  · intro hint env he
    have hm : gitStatusTemplateMatch (String.mk (upToDateStatusText hint)) = true :=
      upToDateStatus_match hint
    refine ⟨hm, ?_⟩
    simp only [pullCmdInGitPull, he]
    exact hm
  · intro repo env fs s hstat hf hs hno
    have hm : gitStatusTemplateMatch s = false := match_false_of_no_clean s.data hno
    have hclone : gitClone env = ("", some .skipDir) := by simp [gitClone, hstat]
    have hfetch : gitFetch env = (fs, none) := by simp [gitFetch, hf]
    have hpull : gitPull env = ("", some .skipDir) := by simp [gitPull, hs, hm]
    have h2 : upgradeRepo repo env
        = ([.fetchFinished repo.directory, .upgradeSkipped repo.directory], .skipped) := by
      simp [upgradeRepo, hclone, fetchStep, hfetch, pullStep, hpull]
    refine ⟨?_, h2, ?_⟩
    · simp [pullCmdInvoked, statusCmdInvoked, fetchCmdInvoked, pullCmdInGitPull,
        hclone, hfetch, hs, hm]
    · rw [h2]
      simp [LogEntry.level]

/-- Witness for C2: a behind-by-2 clean status and an up-to-date clean status
pass the gate; a status with an unstaged change is skipped. -/
theorem claim_C2_witness :
    pullCmdInGitPull (RepoEnv.mk (.ok true) (.ok "") (.ok "")
        (.ok (String.mk (behindStatusText ['2'] true true))) (.ok "")) = true
    ∧ pullCmdInGitPull (RepoEnv.mk (.ok true) (.ok "") (.ok "")
        (.ok (String.mk (upToDateStatusText false))) (.ok "")) = true
    ∧ pullCmdInvoked (RepoEnv.mk (.ok true) (.ok "") (.ok "")
        (.ok "On branch master\nChanges not staged for commit:\n") (.ok "")) = false :=
  ⟨(claim_C2.1 ['2'] true true (by decide) (by decide)
      (RepoEnv.mk (.ok true) (.ok "") (.ok "")
        (.ok (String.mk (behindStatusText ['2'] true true))) (.ok "")) rfl).2,
   (claim_C2.2.1 false
      (RepoEnv.mk (.ok true) (.ok "") (.ok "")
        (.ok (String.mk (upToDateStatusText false))) (.ok "")) rfl).2,
   (claim_C2.2.2 (RepoConfig.mk "/r/a" "u1")
      (RepoEnv.mk (.ok true) (.ok "") (.ok "")
        (.ok "On branch master\nChanges not staged for commit:\n") (.ok ""))
      "" "On branch master\nChanges not staged for commit:\n"
      rfl rfl rfl (by decide)).1⟩

/-- C5: when the local directory already contains `.git`, the clone step is a
no-op: no clone process starts, `gitClone` returns the silent skip sentinel,
no clone log line is emitted, the result does not depend on the clone
process's result (the remote may be unreachable), the fetch step still runs,
and — when fetch succeeds — the pull step still runs. -/
theorem claim_C5 (repo : RepoConfig) (env : RepoEnv)
    (h : env.gitDirStat = .ok true) :
    gitClone env = ("", some .skipDir)
    ∧ cloneCmdInvoked env = false
    ∧ (∀ l ∈ (upgradeRepo repo env).1, l.isCloneLog = false)
    ∧ fetchCmdInvoked env = true
    ∧ (∀ c : CmdResult,
        upgradeRepo repo (RepoEnv.mk env.gitDirStat c env.fetch env.statusOut env.pull)
          = upgradeRepo repo env)
    ∧ ((gitFetch env).2 = none → statusCmdInvoked env = true) := by
  have hclone : gitClone env = ("", some .skipDir) := by simp [gitClone, h]
  refine ⟨hclone, by simp [cloneCmdInvoked, h], ?_,
    by simp [fetchCmdInvoked, hclone], ?_, ?_⟩
  · intro l hl
    have hsame : (upgradeRepo repo env).1 = (fetchStep repo env).1 := by
      simp [upgradeRepo, hclone]
    rw [hsame] at hl
    exact fetchStep_no_clone_log repo env l hl
  · intro c
    have hclone2 : gitClone
        (RepoEnv.mk env.gitDirStat c env.fetch env.statusOut env.pull)
        = ("", some .skipDir) := by simp [gitClone, h]
    simp [upgradeRepo, hclone, hclone2, fetchStep, gitFetch, pullStep, gitPull]
  · intro hf
    simp [statusCmdInvoked, fetchCmdInvoked, hclone, hf]

/-- Witness for C5: a repository with `.git` present and an unreachable remote
is not cloned and its fetch step still runs. -/
theorem claim_C5_witness :
    ((RepoEnv.mk (.ok true) (.fail "" "remote unreachable") (.ok "") (.ok "x")
        (.ok "")).gitDirStat = Except.ok true)
    ∧ gitClone (RepoEnv.mk (.ok true) (.fail "" "remote unreachable") (.ok "")
        (.ok "x") (.ok "")) = ("", some .skipDir)
    ∧ fetchCmdInvoked (RepoEnv.mk (.ok true) (.fail "" "remote unreachable")
        (.ok "") (.ok "x") (.ok "")) = true :=
  have h := claim_C5 (RepoConfig.mk "/r/a" "u1")
    (RepoEnv.mk (.ok true) (.fail "" "remote unreachable") (.ok "") (.ok "x") (.ok ""))
    rfl
  ⟨rfl, h.1, h.2.2.2.1⟩

/-- C6: a clone failure stops that repository before fetch; a fetch failure
stops it before the pull step; both are logged as errors; the loop processes
every repository regardless, and `upgrade` always returns no error to the
orchestrator. -/
theorem claim_C6 :
    (∀ (repo : RepoConfig) (env : RepoEnv) (stderr m : String),
      gitClone env = (stderr, some (.msg m)) →
        upgradeRepo repo env = ([.cloneFailed repo.directory m stderr], .failed)
        ∧ fetchCmdInvoked env = false ∧ statusCmdInvoked env = false
        ∧ pullCmdInvoked env = false)
    ∧ (∀ (repo : RepoConfig) (env : RepoEnv) (stderr m : String),
        ((gitClone env).2 = some .skipDir ∨ (gitClone env).2 = none) →
        gitFetch env = (stderr, some (.msg m)) →
          (upgradeRepo repo env).2 = .failed
          ∧ LogEntry.fetchFailed repo.directory m stderr ∈ (upgradeRepo repo env).1
          ∧ statusCmdInvoked env = false ∧ pullCmdInvoked env = false)
    ∧ (∀ (repos : List RepoConfig) (envOf : RepoConfig → RepoEnv),
        (upgrade repos envOf).2 = none
        ∧ (upgrade repos envOf).1.length = repos.length
        ∧ (upgrade repos envOf).1 = repos.map (fun r => upgradeRepo r (envOf r))) := by
  refine ⟨?_, ?_, ?_⟩
  · intro repo env stderr m h
    refine ⟨by simp [upgradeRepo, h], by simp [fetchCmdInvoked, h], ?_, ?_⟩
    · simp [statusCmdInvoked, fetchCmdInvoked, h]
    · simp [pullCmdInvoked, statusCmdInvoked, fetchCmdInvoked, h]
  · intro repo env stderr m hcl hf
    have hupg : (upgradeRepo repo env).2 = .failed
        ∧ LogEntry.fetchFailed repo.directory m stderr ∈ (upgradeRepo repo env).1 := by
      rcases hg : gitClone env with ⟨cs, ce⟩
      rcases hcl with h1 | h1 <;> rw [hg] at h1 <;> simp only at h1 <;> subst h1 <;>
        simp [upgradeRepo, hg, fetchStep, hf, GoError.text]
    refine ⟨hupg.1, hupg.2, ?_, ?_⟩
    · simp [statusCmdInvoked, hf]
    · simp [pullCmdInvoked, statusCmdInvoked, hf]
  · intro repos envOf
    exact ⟨rfl, by simp [upgrade], rfl⟩

/-- Witness for C6: a failing clone yields a failed repository with only the
clone error logged; a failing fetch yields a failed repository; `upgrade`
returns no error. -/
theorem claim_C6_witness :
    upgradeRepo (RepoConfig.mk "/r/a" "u1")
        (RepoEnv.mk (.ok false) (.fail "" "boom") (.ok "") (.ok "x") (.ok ""))
      = ([.cloneFailed "/r/a" "boom" ""], .failed)
    ∧ (upgradeRepo (RepoConfig.mk "/r/a" "u1")
        (RepoEnv.mk (.ok true) (.ok "") (.fail "" "oops") (.ok "x") (.ok ""))).2
      = Outcome.failed
    ∧ (upgrade [RepoConfig.mk "/r/a" "u1"]
        (fun _ => RepoEnv.mk (.ok false) (.fail "" "boom") (.ok "") (.ok "x")
          (.ok ""))).2 = none :=
  ⟨(claim_C6.1 (RepoConfig.mk "/r/a" "u1")
      (RepoEnv.mk (.ok false) (.fail "" "boom") (.ok "") (.ok "x") (.ok ""))
      "" "boom" (by decide)).1,
   (claim_C6.2.1 (RepoConfig.mk "/r/a" "u1")
      (RepoEnv.mk (.ok true) (.ok "") (.fail "" "oops") (.ok "x") (.ok ""))
      "" "oops" (Or.inl (by decide)) (by decide)).1,
   (claim_C6.2.2 [RepoConfig.mk "/r/a" "u1"]
      (fun _ => RepoEnv.mk (.ok false) (.fail "" "boom") (.ok "") (.ok "x")
        (.ok ""))).1⟩

/-- The walk loop aborts with the first `remoteDir` error it meets. -/
theorem walkRepos_error (d : DiscoveredRepo) (e : String) (post : List DiscoveredRepo)
    (hd : d.remote = .error e) :
    ∀ (pre : List DiscoveredRepo) (repos : List RepoConfig),
      (∀ x ∈ pre, ∃ u, x.remote = .ok u) →
      walkRepos repos (pre ++ d :: post) = .error e := by
  intro pre
  induction pre with
  | nil =>
    intro repos _
    rw [List.nil_append]
    show (match d.remote with
      | Except.error e' => Except.error e'
      | Except.ok url => walkRepos (repos ++ [RepoConfig.mk d.directory url]) post)
      = Except.error e
    rw [hd]
  | cons p t ih =>
    intro repos hpre
    obtain ⟨u, hu⟩ := hpre p (List.mem_cons_self _ _)
    rw [List.cons_append]
    show (match p.remote with
      | Except.error e' => Except.error e'
      | Except.ok url => walkRepos (repos ++ [RepoConfig.mk p.directory url])
          (t ++ d :: post))
      = Except.error e
    rw [hu]
    exact ih _ (fun x hx => hpre x (List.mem_cons_of_mem _ hx))

/-- C4: if extracting the origin remote fails for any one discovered
repository, the whole discovery aborts with that error, `update` returns it,
and the run stops before reconciliation and before the manifest write-back. -/
theorem claim_C4 (manifest : List RepoConfig) (pre post : List DiscoveredRepo)
    (d : DiscoveredRepo) (e : String) (hd : d.remote = .error e)
    (hpre : ∀ x ∈ pre, ∃ u, x.remote = .ok u) :
    updateRepos manifest (pre ++ d :: post) = .error e
    ∧ (∀ (fl : Flag) (env : DoEnv) (c : String) (m : List RepoConfig),
        fl.update = true → env.readFile = .ok c → env.unmarshal = .ok m →
        env.walk = pre ++ d :: post →
          doRun fl env = ([.load, .discovery], some e)) := by
  constructor
  · simp [updateRepos, walkRepos_error d e post hd pre manifest hpre]
  · intro fl env c m hupd hread hun hwalk
    have hw2 : updateRepos m (pre ++ d :: post) = .error e := by
      simp [updateRepos, walkRepos_error d e post hd pre m hpre]
    simp [doRun, loadManifest, hread, hun, hupd, hwalk, hw2]

/-- Witness for C4: one discovered repository without an origin URL aborts the
whole update run before reconciliation and before write-back. -/
theorem claim_C4_witness :
    updateRepos [] ([] ++ DiscoveredRepo.mk "/r/x" (.error "no origin") :: [])
      = .error "no origin"
    ∧ doRun (Flag.mk "/r" true true)
        (DoEnv.mk (.ok "repos:") (.ok [])
          ([] ++ DiscoveredRepo.mk "/r/x" (.error "no origin") :: [])
          (fun _ => RepoEnv.mk (.ok true) (.ok "") (.ok "") (.ok "x") (.ok ""))
          (.ok "") none)
      = ([.load, .discovery], some "no origin") :=
  have h := claim_C4 [] [] [] (DiscoveredRepo.mk "/r/x" (.error "no origin"))
    "no origin" rfl (by simp)
  ⟨h.1, h.2 (Flag.mk "/r" true true)
    (DoEnv.mk (.ok "repos:") (.ok [])
      ([] ++ DiscoveredRepo.mk "/r/x" (.error "no origin") :: [])
      (fun _ => RepoEnv.mk (.ok true) (.ok "") (.ok "") (.ok "x") (.ok ""))
      (.ok "") none)
    "repos:" [] rfl rfl rfl rfl⟩

/-- C7: the orchestrator runs load, then (if the update flag) discovery, then
(if the upgrade flag) reconciliation, then (if the update flag) persist, in
that order; a load or discovery failure aborts the run before any later
stage; reconciliation never aborts the run (and never returns an error). -/
theorem claim_C7 (fl : Flag) (env : DoEnv) :
    (∀ e, loadManifest env = .error e → doRun fl env = ([.load], some e))
    ∧ (∀ e m, loadManifest env = .ok m → fl.update = true →
        updateRepos m env.walk = .error e →
          doRun fl env = ([.load, .discovery], some e))
    ∧ (∀ m, loadManifest env = .ok m →
        (∀ hu : fl.update = true, ∃ m2, updateRepos m env.walk = .ok m2) →
          (doRun fl env).1
            = [Stage.load] ++ (if fl.update then [Stage.discovery] else [])
              ++ (if fl.upgrade then [Stage.reconcile] else [])
              ++ (if fl.update then [Stage.persist] else [])
          ∧ (doRun fl env).2 = (if fl.update then persistManifest env else none))
    ∧ (∀ (repos : List RepoConfig) (envOf : RepoConfig → RepoEnv),
        (upgrade repos envOf).2 = none) := by
  refine ⟨?_, ?_, ?_, fun repos envOf => rfl⟩
  · intro e he
    simp [doRun, he]
  · intro e m hm hu hw
    simp [doRun, hm, hu, hw]
  · intro m hm hupd
    cases hu : fl.update with
    | true =>
      obtain ⟨m2, hm2⟩ := hupd hu
      cases hg : fl.upgrade <;>
        constructor <;> simp [doRun, hm, hu, hm2, hg, upgrade]
    | false =>
      cases hg : fl.upgrade <;>
        constructor <;> simp [doRun, hm, hu, hg, upgrade]

/-- Witness for C7: with both flags on and everything succeeding, all four
stages run in order. -/
theorem claim_C7_witness :
    (doRun (Flag.mk "/r" true true)
      (DoEnv.mk (.ok "repos:") (.ok []) []
        (fun _ => RepoEnv.mk (.ok true) (.ok "") (.ok "") (.ok "x") (.ok ""))
        (.ok "") none)).1
      = [Stage.load, Stage.discovery, Stage.reconcile, Stage.persist] := by
  have h := (claim_C7 (Flag.mk "/r" true true)
    (DoEnv.mk (.ok "repos:") (.ok []) []
      (fun _ => RepoEnv.mk (.ok true) (.ok "") (.ok "") (.ok "x") (.ok ""))
      (.ok "") none)).2.2.1 [] rfl (fun _ => ⟨mergeAndSort [], rfl⟩)
  rw [h.1]
  decide

/-- C3 (amended): for the status text with the blank line the template
requires, `"On branch master\nYour branch is up-to-date with
'origin/master'.\n\nnothing to commit, working tree clean\n"`, the gate
accepts, `git pull` is invoked, and the outcome is `success`. -/
theorem claim_C3_amended :
    gitStatusTemplateMatch "On branch master\nYour branch is up-to-date with 'origin/master'.\n\nnothing to commit, working tree clean\n" = true
    ∧ pullCmdInvoked
        (RepoEnv.mk (.ok true) (.ok "") (.ok "")
          (.ok "On branch master\nYour branch is up-to-date with 'origin/master'.\n\nnothing to commit, working tree clean\n")
          (.ok "")) = true
    ∧ (upgradeRepo (RepoConfig.mk "/r/a" "u1")
        (RepoEnv.mk (.ok true) (.ok "") (.ok "")
          (.ok "On branch master\nYour branch is up-to-date with 'origin/master'.\n\nnothing to commit, working tree clean\n")
          (.ok ""))).2 = Outcome.success := by
  refine ⟨by decide, by decide, by decide⟩

end CodeManager
